import Mathlib

/-!
Verification of the grahin RAG backend core against its specification.

The Python source is embedded shallowly:
  - `app/services/file_processor.py` (`FileProcessor.chunk_text`) as a fueled
    loop over `List Char`, with Python's indexing and slicing semantics
    (negative indices wrap, slices clamp) made explicit;
  - `app/services/rag_service.py` (collection naming, search, response
    generation, vector-store mutation) over an explicit vector-store state,
    with the embedding/similarity backend and the language model passed in as
    function parameters (they are black-box collaborators in the spec);
  - `app/api/files.py` (`upload_file`, `delete_file`) and
    `app/api/chat.py` (`search_documents` route) as state transitions over an
    application state holding file records, chunk records and the vector store.
-/

namespace Grahin

/-! ## Python string primitives

`chunk_text` indexes and slices a Python `str`.  Python indexing admits
negative indices (counted from the end) and raises `IndexError` outside
`[-len, len)`; slices normalise and clamp their endpoints instead of failing.
-/

/-- The sentence/word delimiter set of `chunk_text` (`'.!?\n '`). -/
def delims : List Char := ['.', '!', '?', '\n', ' ']

/-- Python `t[i]` for `i : Int`: negative indices count from the end;
`none` models `IndexError`. -/
def pyIdx (t : List Char) (i : Int) : Option Char :=
  if 0 ≤ i then t.get? i.toNat
  else if 0 ≤ (t.length : Int) + i then t.get? ((t.length : Int) + i).toNat
  else none

/-- Normalisation of one slice endpoint, Python style: negative endpoints are
counted from the end and clamped below by 0; nonnegative ones are clamped
above by the length. -/
def pyNorm (n : Nat) (i : Int) : Nat :=
  if i < 0 then ((n : Int) + i).toNat else min i.toNat n

/-- Python `t[a:b]`. -/
def pySlice (t : List Char) (a b : Int) : List Char :=
  (t.take (pyNorm t.length b)).drop (pyNorm t.length a)

/-! ## `FileProcessor.chunk_text` (file_processor.py, lines 134-159)

The inner `while end > start and text[end] not in '.!?\n '` walk is
`snapBack t start j`, with `end = start + j`; it stops when `j = 0`
(`end == start`) or at a delimiter, and `none` models an `IndexError`.

The outer `while start < len(text)` loop is `chunkLoop`, driven by an explicit
fuel counter because the source loop does not terminate on all inputs.  The
overall result is `none` when the fuel runs out (the source loop is still
running), `some none` when the source raises, and `some (some l)` when the
source returns the chunk list `l`. -/

/-- The boundary walk-back of `chunk_text`. -/
def snapBack (t : List Char) (start : Int) : Nat → Option Int
  | 0 => some start
  | j+1 =>
    match pyIdx t (start + (j+1 : Nat)) with
    | none => none
    | some c => if c ∈ delims then some (start + (j+1 : Nat)) else snapBack t start j

/-- The outer loop of `chunk_text`: cursor `start`, accumulated `chunks`. -/
def chunkLoop (t : List Char) (cs ov : Nat) : Nat → Int → List (List Char) →
    Option (Option (List (List Char)))
  | 0, _, _ => none
  | fuel+1, start, acc =>
    if start < (t.length : Int) then
      if (t.length : Int) ≤ start + (cs : Int) then
        some (some (acc ++ [pySlice t start (t.length : Int)]))
      else
        match snapBack t start cs with
        | none => some none
        | some b =>
          let e : Int := if b = start then start + (cs : Int) else b
          chunkLoop t cs ov fuel (e - (ov : Int)) (acc ++ [pySlice t start e])
    else some (some acc)

/-- `FileProcessor.chunk_text(text, chunk_size, overlap)`. -/
def chunk_text (fuel : Nat) (t : List Char) (cs ov : Nat) :
    Option (Option (List (List Char))) :=
  if t.length ≤ cs then some (some [t]) else chunkLoop t cs ov fuel 0 []

/-! ## `RAGService` (rag_service.py)

The Chroma backend is modelled as a mapping from collection names to lists of
stored entries; the similarity computation itself and the language model are
black-box collaborators (spec §2), passed in as function parameters.  An
entry's `vid` is the id the backend stores it under. -/

/-- One vector stored by the backend: backend id, page content, and the
metadata written by `add_documents_to_vector_store`. -/
structure VEntry where
  vid : String
  content : String
  meta_file_id : String
  meta_chunk_index : Nat
  deriving DecidableEq, Repr

/-- The Chroma persistence layer: a collection name keyed store. -/
def VectorStore : Type := String → List VEntry

/-- `RAGService.get_user_vector_store` (rag_service.py line 61): the
collection a user's vectors live in is `f"user_{user_id}"`. -/
def collectionName (user_id : String) : String := "user_" ++ user_id

/-- `vector_store.add_documents(docs)` on the store returned by
`get_user_vector_store(user_id)`: appends to that user's collection only. -/
def vsAddDocuments (store : VectorStore) (user_id : String) (docs : List VEntry) :
    VectorStore :=
  fun name => if name = collectionName user_id then store name ++ docs else store name

/-- `vector_store.delete(ids)` on the store returned by
`get_user_vector_store(user_id)`: removes the named ids from that user's
collection only. -/
def vsDelete (store : VectorStore) (user_id : String) (ids : List String) :
    VectorStore :=
  fun name =>
    if name = collectionName user_id then
      (store name).filter (fun e => !(ids.contains e.vid))
    else store name

/-- A backend write issued through `get_user_vector_store`, as performed by
`add_documents_to_vector_store` / `delete_file_from_vector_store`. -/
inductive VOp where
  | add (docs : List VEntry)
  | del (ids : List String)

/-- Apply one operation under `user_id`'s collection. -/
def applyVOp (user_id : String) (store : VectorStore) : VOp → VectorStore
  | .add docs => vsAddDocuments store user_id docs
  | .del ids => vsDelete store user_id ids

/-- Apply a sequence of operations under `user_id`'s collection. -/
def applyVOps (user_id : String) (ops : List VOp) (store : VectorStore) :
    VectorStore :=
  ops.foldl (applyVOp user_id) store

/-- The black-box similarity search: given the entries of one collection, a
query and `k`, the backend returns scored entries drawn from that collection. -/
def Backend : Type := List VEntry → String → Int → List (VEntry × Int)

/-- One formatted result of `RAGService.search_documents` (content, metadata,
score). -/
structure SearchHit where
  content : String
  meta_file_id : String
  meta_chunk_index : Nat
  score : Int
  deriving DecidableEq, Repr

/-- `RAGService.search_documents` (rag_service.py lines 110-126): open the
user's collection, run `similarity_search_with_score(query, k=k)`, format. -/
def search_documents (backend : Backend) (store : VectorStore)
    (user_id query : String) (k : Int) : List SearchHit :=
  (backend (store (collectionName user_id)) query k).map
    (fun p => ⟨p.1.content, p.1.meta_file_id, p.1.meta_chunk_index, p.2⟩)

/-- The observable steps `search_documents` performs against the vector
backend, in order: it opens the user's collection (`get_user_vector_store`,
which lazily creates it), then issues the similarity query with exactly the
supplied `k`.  Neither the service (rag_service.py lines 110-126) nor the
route (chat.py lines 165-183, `k: int = 5` with no constraint) validates `k`
first. -/
inductive SearchEffect where
  | getCollection (name : String)
  | backendQuery (name : String) (query : String) (k : Int)
  deriving DecidableEq, Repr

/-- The backend-effect trace of one `search_documents` call. -/
def searchEffects (user_id query : String) (k : Int) : List SearchEffect :=
  [.getCollection (collectionName user_id),
   .backendQuery (collectionName user_id) query k]

/-- The fixed instruction of the prompt built by `generate_response`
(rag_service.py lines 137-145). -/
def ragInstruction : String :=
  "Use the following pieces of context to answer the question at the end.\nIf you don't know the answer from the context, just say that you don't know.\nDo not try to make up an answer. Keep the answer concise and relevant.\n\nContext: "

/-- The full prompt f-string of `generate_response`. -/
def ragPrompt (context query : String) : String :=
  ragInstruction ++ context ++ "\n\nQuestion: " ++ query ++ "\n\nAnswer:"

/-- `"\n\n".join([result["content"] for result in search_results])`
(rag_service.py line 134). -/
def buildContext (results : List SearchHit) : String :=
  String.intercalate "\n\n" (results.map (fun r => r.content))

/-- `RAGService.generate_response` (rag_service.py lines 128-150): search with
`k=5`, join the contents, build the prompt, invoke the LM and return its
content.  The `file_ids` parameter appears in the signature and nowhere in the
body, exactly as in the source. -/
def generate_response (backend : Backend) (store : VectorStore)
    (llm : String → String) (user_id query : String)
    (file_ids : Option (List String)) : String :=
  llm (ragPrompt (buildContext (search_documents backend store user_id query 5)) query)

/-- The observable behaviour of one `generate_response` call: the search it
issues, the prompt it builds, and the answer it returns. -/
structure GenTrace where
  searchCall : String × String × Int
  prompt : String
  answer : String
  deriving DecidableEq

/-- `generate_response`, observed as a trace (rag_service.py lines 128-150). -/
def generateResponseTrace (backend : Backend) (store : VectorStore)
    (llm : String → String) (user_id query : String)
    (file_ids : Option (List String)) : GenTrace :=
  let results := search_documents backend store user_id query 5
  { searchCall := (user_id, query, 5),
    prompt := ragPrompt (buildContext results) query,
    answer := llm (ragPrompt (buildContext results) query) }

/-! ## Application state and the file API (app/api/files.py)

`upload_file` and `delete_file` act on the database (file records, chunk
records) and — per the source as written — never on the vector store. -/

/-- One row of the `files` table, as touched by the upload/delete routes. -/
structure FileRec where
  id : String
  user_id : String
  is_processed : Bool
  processing_status : String
  deriving DecidableEq, Repr

/-- One row of the `document_chunks` table. -/
structure ChunkRec where
  file_id : String
  chunk_index : Nat
  content : List Char
  embedding_id : Option String
  deriving DecidableEq, Repr

/-- Database plus vector backend state. -/
structure AppState where
  files : List FileRec
  chunks : List ChunkRec
  vector : VectorStore

/-- `upload_file` (files.py lines 16-65), from the point where the text has
been extracted: chunk with the default configuration `(1000, 200)`, persist
one `DocumentChunk` per produced segment with its zero-based index, and mark
the file `completed`; if processing raises, mark it `failed` and keep
whatever was added (the exception fires inside `chunk_text`, before any chunk
record is created).  `none` means the request never returns (the chunking
loop is still running).  The vector store is not touched on any path. -/
def upload_file (fuel : Nat) (s : AppState) (user_id file_id : String)
    (text : List Char) : Option AppState :=
  match chunk_text fuel text 1000 200 with
  | none => none
  | some none =>
    some { s with files := s.files ++
      [{ id := file_id, user_id := user_id, is_processed := false,
         processing_status := "failed" }] }
  | some (some cks) =>
    some { s with
      files := s.files ++
        [{ id := file_id, user_id := user_id, is_processed := true,
           processing_status := "completed" }],
      chunks := s.chunks ++ cks.enum.map
        (fun p => { file_id := file_id, chunk_index := p.1, content := p.2,
                    embedding_id := none }) }

/-- `delete_file` (files.py lines 103-128): look up the file scoped to the
current user (404 → `none` if absent), remove the stored file, delete the
record (cascading to its chunk records).  The vector store is not touched. -/
def delete_file (s : AppState) (user_id file_id : String) : Option AppState :=
  if s.files.any (fun f => f.id == file_id && f.user_id == user_id) then
    some { s with
      files := s.files.filter (fun f => !(f.id == file_id && f.user_id == user_id)),
      chunks := s.chunks.filter (fun c => !(c.file_id == file_id)) }
  else none

/-! ## Concrete sample data used to instantiate the theorems -/

/-- A backend that returns every stored entry of the collection, score 0. -/
def echoBackend : Backend := fun es _ _ => es.map (fun e => (e, 0))

/-- A store whose every collection holds the single vector of document `d1`. -/
def vec1 : VectorStore := fun _ => [⟨"d1_0", "hello", "d1", 0⟩]

/-- A state with one completed, indexed document `d1` owned by `u1`. -/
def sampleState : AppState :=
  ⟨[⟨"d1", "u1", true, "completed"⟩], [⟨"d1", 0, ['h'], none⟩], vec1⟩

/-- `sampleState` after `delete_file` removed document `d1`. -/
def sampleDeleted : AppState := ⟨[], [], vec1⟩

/-- A store where only alice's collection holds a vector, external id `a_0`. -/
def witnessStore : VectorStore :=
  fun name => if name = collectionName "alice" then [⟨"a_0", "hello", "a", 0⟩] else []

/-! ## Helper lemmas -/

theorem applyVOps_other (user_id : String) (ops : List VOp) (store : VectorStore)
    (name : String) (h : name ≠ collectionName user_id) :
    applyVOps user_id ops store name = store name := by
  induction ops generalizing store with
  | nil => rfl
  | cons op rest ih =>
    show applyVOps user_id rest (applyVOp user_id store op) name = store name
    rw [ih (applyVOp user_id store op)]
    cases op with
    | add docs => simp [applyVOp, vsAddDocuments, h]
    | del ids => simp [applyVOp, vsDelete, h]

theorem collectionName_inj {a b : String} (h : collectionName a = collectionName b) :
    a = b := by
  have hd : ("user_" ++ a).data = ("user_" ++ b).data := by
    rw [show ("user_" ++ a) = collectionName a from rfl,
        show ("user_" ++ b) = collectionName b from rfl, h]
  rw [String.data_append, String.data_append] at hd
  have := List.append_cancel_left hd
  cases a; cases b; exact congrArg String.mk this

theorem c3_loop_stuck (fuel : Nat) :
    ∀ acc, chunkLoop ['a', ' ', 'b', 'c'] 2 1 fuel 0 acc = none := by
  induction fuel with
  | zero => intro acc; rfl
  | succ n ih => intro acc; exact ih (acc ++ [['a']])

theorem snapBack_noDelim (t : List Char) (hnd : ∀ c ∈ t, c ∉ delims)
    (start : Int) (hs : 0 ≤ start) :
    ∀ j : Nat, start + j < t.length → snapBack t start j = some start := by
  intro j
  induction j with
  | zero => intro _; rfl
  | succ n ih =>
    intro hlt
    have hnn : (0:Int) ≤ start + (n+1 : Nat) := by push_cast; omega
    have hidx : (start + ((n:Int)+1)).toNat < t.length := by omega
    have hget : t.get? (start + ((n:Int)+1)).toNat
        = some (t.get ⟨(start + ((n:Int)+1)).toNat, hidx⟩) :=
      List.get?_eq_get hidx
    have hpy : pyIdx t (start + (n+1 : Nat))
        = some (t.get ⟨(start + ((n:Int)+1)).toNat, hidx⟩) := by
      unfold pyIdx
      rw [if_pos hnn]
      exact hget
    have hmem : t.get ⟨(start + ((n:Int)+1)).toNat, hidx⟩ ∈ t :=
      List.get?_mem hget
    show snapBack t start (n+1) = some start
    rw [snapBack, hpy]
    simp only [if_neg (hnd _ hmem)]
    exact ih (by omega)

theorem chunkLoop_tail (t : List Char) (cs ov n : Nat) (start : Int)
    (acc : List (List Char)) (h1 : start < (t.length : Int))
    (h2 : (t.length : Int) ≤ start + (cs : Int)) :
    chunkLoop t cs ov (n+1) start acc
      = some (some (acc ++ [pySlice t start (t.length : Int)])) := by
  rw [chunkLoop, if_pos h1, if_pos h2]

theorem chunkLoop_step_noDelim (t : List Char) (hnd : ∀ c ∈ t, c ∉ delims)
    (cs ov n : Nat) (start : Int) (acc : List (List Char)) (hs : 0 ≤ start)
    (hlt : start + (cs : Int) < t.length) :
    chunkLoop t cs ov (n+1) start acc
      = chunkLoop t cs ov n (start + (cs : Int) - (ov : Int))
          (acc ++ [pySlice t start (start + (cs : Int))]) := by
  have hsnap : snapBack t start cs = some start :=
    snapBack_noDelim t hnd start hs cs (by omega)
  rw [chunkLoop, if_pos (by omega), if_neg (by omega), hsnap]
  simp

theorem snapBack_spec (t : List Char) (start : Int) (hs : 0 ≤ start) :
    ∀ j : Nat, start + j < t.length →
      ∃ b : Nat, snapBack t start j = some (start + (b : Int)) ∧ b ≤ j ∧
        (b = 0 ∨ ∃ c, pyIdx t (start + (b : Int)) = some c ∧ c ∈ delims) ∧
        ∀ i : Nat, b < i → i ≤ j → ∀ c, pyIdx t (start + (i : Int)) = some c →
          c ∉ delims := by
  intro j
  induction j with
  | zero =>
    intro _
    refine ⟨0, by simp [snapBack], by omega, Or.inl rfl, ?_⟩
    intro i h1 h2 c _
    omega
  | succ m ih =>
    intro hlt
    have hnn : (0:Int) ≤ start + ((m+1 : Nat) : Int) := by omega
    have hidx : (start + ((m+1 : Nat) : Int)).toNat < t.length := by omega
    have hget : t.get? (start + ((m+1 : Nat) : Int)).toNat
        = some (t.get ⟨(start + ((m+1 : Nat) : Int)).toNat, hidx⟩) :=
      List.get?_eq_get hidx
    have hpy : pyIdx t (start + ((m+1 : Nat) : Int))
        = some (t.get ⟨(start + ((m+1 : Nat) : Int)).toNat, hidx⟩) := by
      unfold pyIdx
      rw [if_pos hnn]
      exact hget
    by_cases hdel : t.get ⟨(start + ((m+1 : Nat) : Int)).toNat, hidx⟩ ∈ delims
    · refine ⟨m+1, ?_, le_refl _, Or.inr ⟨_, hpy, hdel⟩, ?_⟩
      · rw [snapBack, hpy]
        simp only [if_pos hdel]
      · intro i h1 h2 c _
        omega
    · obtain ⟨b, hsnap, hble, hbd, habove⟩ := ih (by omega)
      refine ⟨b, ?_, by omega, hbd, ?_⟩
      · rw [snapBack, hpy]
        simp only [if_neg hdel]
        exact hsnap
      · intro i h1 h2 c hc
        by_cases him : i = m + 1
        · subst him
          obtain rfl := Option.some.inj (hc.symm.trans hpy)
          exact hdel
        · exact habove i h1 (by omega) c hc

theorem snapBack_stuck (t : List Char) (start : Int) (ov J : Nat)
    (hov1 : 1 ≤ ov)
    (hd : ∃ c, pyIdx t (start + (ov : Int)) = some c ∧ c ∈ delims)
    (hno : ∀ i : Nat, ov < i → i ≤ J →
      ∀ c, pyIdx t (start + (i : Int)) = some c → c ∉ delims) :
    ∀ j : Nat, ov ≤ j → j ≤ J →
      snapBack t start j = some (start + (ov : Int)) ∨
        snapBack t start j = none := by
  intro j
  induction j with
  | zero => intro h1 _; exact absurd h1 (by omega)
  | succ m ih =>
    intro h1 h2
    obtain ⟨c, hc, hcd⟩ := hd
    by_cases hm : ov = m + 1
    · left
      subst hm
      rw [snapBack, hc]
      simp only [if_pos hcd]
    · have hlt : ov < m + 1 := by omega
      cases hpy : pyIdx t (start + ((m+1 : Nat) : Int)) with
      | none => right; rw [snapBack, hpy]
      | some c2 =>
        have hnd : c2 ∉ delims := hno (m+1) hlt h2 c2 hpy
        rw [snapBack, hpy]
        simp only [if_neg hnd]
        exact ih (by omega) (by omega)

theorem chunkLoop_snap (t : List Char) (cs ov n : Nat) (start : Int)
    (acc : List (List Char)) (b : Int) (h1 : start < (t.length : Int))
    (h2 : ¬ ((t.length : Int) ≤ start + (cs : Int)))
    (hsnap : snapBack t start cs = some b) :
    chunkLoop t cs ov (n+1) start acc
      = chunkLoop t cs ov n
          ((if b = start then start + (cs : Int) else b) - (ov : Int))
          (acc ++ [pySlice t start
            (if b = start then start + (cs : Int) else b)]) := by
  rw [chunkLoop, if_pos h1, if_neg h2, hsnap]

theorem chunkLoop_snap_err (t : List Char) (cs ov n : Nat) (start : Int)
    (acc : List (List Char)) (h1 : start < (t.length : Int))
    (h2 : ¬ ((t.length : Int) ≤ start + (cs : Int)))
    (hsnap : snapBack t start cs = none) :
    chunkLoop t cs ov (n+1) start acc = some none := by
  rw [chunkLoop, if_pos h1, if_neg h2, hsnap]

theorem chunkLoop_stuck (t : List Char) (cs ov : Nat) (start : Int)
    (hov : ov < cs) (hov1 : 1 ≤ ov) (hneg : start < 0)
    (hd : ∃ c, pyIdx t (start + (ov : Int)) = some c ∧ c ∈ delims)
    (hno : ∀ i : Nat, ov < i → i ≤ cs →
      ∀ c, pyIdx t (start + (i : Int)) = some c → c ∉ delims)
    (hlen : start + (cs : Int) < t.length) :
    ∀ fuel acc l, chunkLoop t cs ov fuel start acc ≠ some (some l) := by
  intro fuel
  induction fuel with
  | zero => intro acc l h; exact Option.noConfusion h
  | succ n ih =>
    intro acc l h
    rcases snapBack_stuck t start ov cs hov1 hd hno cs (by omega) (le_refl cs)
      with hsnap | hsnap
    · rw [chunkLoop_snap t cs ov n start acc _ (by omega) (by omega) hsnap] at h
      rw [if_neg (by omega : ¬ (start + (ov : Int) = start))] at h
      rw [show start + (ov : Int) - (ov : Int) = start from by ring] at h
      exact ih (acc ++ [pySlice t start (start + (ov : Int))]) l h
    · rw [chunkLoop_snap_err t cs ov n start acc (by omega) (by omega) hsnap] at h
      exact Option.noConfusion (Option.some.inj h)

theorem pySlice_ne_nil (t : List Char) (a b : Int) (ha : 0 ≤ a) (hab : a < b)
    (hb : b ≤ t.length) : pySlice t a b ≠ [] := by
  have h1 : pyNorm t.length a = a.toNat := by
    unfold pyNorm
    rw [if_neg (by omega)]
    omega
  have h2 : pyNorm t.length b = b.toNat := by
    unfold pyNorm
    rw [if_neg (by omega)]
    omega
  unfold pySlice
  rw [h1, h2]
  have hlen : ((t.take b.toNat).drop a.toNat).length = b.toNat - a.toNat := by
    simp [List.length_drop, List.length_take]
    omega
  intro hnil
  rw [hnil] at hlen
  simp at hlen
  omega

theorem chunkLoop_no_empty (t : List Char) (cs ov : Nat) (hov : ov < cs) :
    ∀ fuel (start : Int) acc l, 0 ≤ start →
      chunkLoop t cs ov fuel start acc = some (some l) → [] ∉ acc → [] ∉ l := by
  intro fuel
  induction fuel with
  | zero => intro start acc l _ h _; exact Option.noConfusion h
  | succ n ih =>
    intro start acc l hs h hacc
    by_cases h1 : start < (t.length : Int)
    · by_cases h2 : (t.length : Int) ≤ start + (cs : Int)
      · rw [chunkLoop_tail t cs ov n start acc h1 h2] at h
        obtain rfl := Option.some.inj (Option.some.inj h)
        intro hmem
        rcases List.mem_append.mp hmem with hm | hm
        · exact hacc hm
        · rw [List.mem_singleton] at hm
          exact (pySlice_ne_nil t start _ hs h1 (le_refl _)) hm.symm
      · push_neg at h2
        obtain ⟨b, hsnap, hble, hbd, habove⟩ :=
          snapBack_spec t start hs cs (by omega)
        rw [chunkLoop_snap t cs ov n start acc _ h1 (by omega) hsnap] at h
        by_cases hb0 : start + (b : Int) = start
        · rw [if_pos hb0] at h
          refine ih (start + (cs : Int) - (ov : Int)) _ l (by omega) h ?_
          intro hmem
          rcases List.mem_append.mp hmem with hm | hm
          · exact hacc hm
          · rw [List.mem_singleton] at hm
            exact (pySlice_ne_nil t start _ hs (by omega) (by omega)) hm.symm
        · rw [if_neg hb0] at h
          have hb1 : 1 ≤ b := by
            rcases Nat.eq_zero_or_pos b with h0 | h0
            · exact absurd (by rw [h0]; push_cast; ring) hb0
            · exact h0
          by_cases hpos : (0:Int) ≤ start + (b : Int) - (ov : Int)
          · refine ih (start + (b : Int) - (ov : Int)) _ l hpos h ?_
            intro hmem
            rcases List.mem_append.mp hmem with hm | hm
            · exact hacc hm
            · rw [List.mem_singleton] at hm
              exact (pySlice_ne_nil t start _ hs (by omega) (by omega)) hm.symm
          · push_neg at hpos
            have hov1 : 1 ≤ ov := by omega
            have hd : ∃ c,
                pyIdx t (start + (b : Int) - (ov : Int) + (ov : Int)) = some c ∧
                  c ∈ delims := by
              rw [show start + (b : Int) - (ov : Int) + (ov : Int)
                  = start + (b : Int) from by ring]
              rcases hbd with h0 | h0
              · exact absurd h0 (by omega)
              · exact h0
            have hno : ∀ i : Nat, ov < i → i ≤ cs →
                ∀ c, pyIdx t (start + (b : Int) - (ov : Int) + (i : Int)) = some c →
                  c ∉ delims := by
              intro i hi1 hi2 c hc
              have hjc : ((b + i - ov : Nat) : Int)
                  = (b : Int) - (ov : Int) + (i : Int) := by omega
              apply habove (b + i - ov) (by omega) (by omega) c
              rw [show start + ((b + i - ov : Nat) : Int)
                  = start + (b : Int) - (ov : Int) + (i : Int) from by omega]
              exact hc
            have hlen : start + (b : Int) - (ov : Int) + (cs : Int)
                < (t.length : Int) := by omega
            exact absurd h
              (chunkLoop_stuck t cs ov (start + (b : Int) - (ov : Int)) hov hov1
                hpos hd hno hlen n _ l)
    · rw [chunkLoop, if_neg h1] at h
      obtain rfl := Option.some.inj (Option.some.inj h)
      exact hacc

/-! ## Claim theorems -/

/-- C3: the claim states that for every `0 ≤ overlap < chunk_size` the
chunking loop terminates with a strictly increasing cursor.  The code has no
clamp on `start = end - overlap`: on the text `"a bc"` with `chunk_size = 2`,
`overlap = 1` — a valid configuration — the boundary snaps back to the space
at index 1 on every iteration and the cursor returns to 0, so `chunk_text`
never returns, for any amount of fuel. -/
theorem chunk_text_diverges_on_valid_config :
    ∀ fuel : Nat, chunk_text fuel ['a', ' ', 'b', 'c'] 2 1 = none := by
  intro fuel
  unfold chunk_text
  rw [if_neg (by decide)]
  exact c3_loop_stuck fuel []

/-- C4: with `chunk_size = 1000`, `overlap = 200`, on any 2500-character text
containing none of the delimiter characters, `chunk_text` returns the three
raw-offset cuts `[0,1000)`, `[800,1800)`, `[1600,2500)`: each chunk's length
is at most 1000, consecutive chunks overlap by exactly 200 characters, and
the final chunk ends exactly at the end of the text (it is `t.drop 1600`). -/
theorem chunk_text_no_delim_2500 (t : List Char) (h2500 : t.length = 2500)
    (hnd : ∀ c ∈ t, c ∉ delims) (fuel : Nat) (hf : 3 ≤ fuel) :
    chunk_text fuel t 1000 200
      = some (some [t.take 1000, (t.take 1800).drop 800, t.drop 1600])
    ∧ (t.take 1000).length = 1000
    ∧ ((t.take 1800).drop 800).length = 1000
    ∧ (t.drop 1600).length = 900
    ∧ (t.take 1000).drop 800 = ((t.take 1800).drop 800).take 200
    ∧ ((t.take 1000).drop 800).length = 200
    ∧ ((t.take 1800).drop 800).drop 800 = (t.drop 1600).take 200
    ∧ (((t.take 1800).drop 800).drop 800).length = 200 := by
  obtain ⟨n, rfl⟩ : ∃ n, fuel = n + 3 := ⟨fuel - 3, by omega⟩
  have hl : (t.length : Int) = 2500 := by rw [h2500]; rfl
  have e1 : pySlice t 0 1000 = t.take 1000 := by
    simp [pySlice, pyNorm, h2500]
  have e2 : pySlice t 800 1800 = (t.take 1800).drop 800 := by
    simp [pySlice, pyNorm, h2500]
  have e3 : pySlice t 1600 (t.length : Int) = t.drop 1600 := by
    simp [pySlice, pyNorm, h2500]
    rw [← h2500, List.take_length]
  refine ⟨?_, ?_, ?_, ?_, ?_, ?_, ?_, ?_⟩
  · unfold chunk_text
    rw [if_neg (by omega)]
    rw [show n + 3 = (n + 2) + 1 from rfl,
      chunkLoop_step_noDelim t hnd 1000 200 (n+2) 0 [] (by norm_num)
        (by rw [hl]; norm_num)]
    norm_num
    rw [show n + 2 = (n + 1) + 1 from rfl,
      chunkLoop_step_noDelim t hnd 1000 200 (n+1) 800 _ (by norm_num)
        (by rw [hl]; norm_num)]
    norm_num
    rw [chunkLoop_tail t 1000 200 n 1600 _ (by rw [hl]; norm_num)
        (by rw [hl]; norm_num)]
    simp [e1, e2, e3]
  · simp [h2500]
  · simp [h2500]
  · simp [h2500]
  · rw [List.drop_take, List.drop_take, List.take_take]
    norm_num
  · simp [h2500]
  · rw [List.drop_take, List.drop_take, List.drop_drop]
  · simp [h2500]

/-- Witness for C4: the 2500-character text `aaa…a` has no delimiters; with
fuel 3 the embedding returns the three cuts. -/
theorem chunk_text_no_delim_2500_witness :
    chunk_text 3 (List.replicate 2500 'a') 1000 200
      = some (some [(List.replicate 2500 'a').take 1000,
          ((List.replicate 2500 'a').take 1800).drop 800,
          (List.replicate 2500 'a').drop 1600]) :=
  (chunk_text_no_delim_2500 (List.replicate 2500 'a')
    (by rw [List.length_replicate])
    (fun c hc => by rw [List.eq_of_mem_replicate hc]; decide) 3 (by norm_num)).1

/-- C5: for every non-empty text and every valid configuration
`0 ≤ overlap < chunk_size`, no element of a chunk list returned by
`chunk_text` is the empty string.  (On inputs where the source loop never
returns — see C3 — there is no returned list; whenever the fueled embedding
does return one, every element of it is non-empty.) -/
theorem chunk_text_no_empty_chunk (t : List Char) (cs ov fuel : Nat)
    (l : List (List Char)) (hov : ov < cs) (hne : t ≠ [])
    (h : chunk_text fuel t cs ov = some (some l)) : [] ∉ l := by
  unfold chunk_text at h
  by_cases hlc : t.length ≤ cs
  · rw [if_pos hlc] at h
    obtain rfl := Option.some.inj (Option.some.inj h)
    intro hmem
    rw [List.mem_singleton] at hmem
    exact hne hmem.symm
  · rw [if_neg hlc] at h
    exact chunkLoop_no_empty t cs ov hov fuel 0 [] l (by norm_num) h (by simp)

/-- Witness for C5: chunking the two-character text `hi` with
`chunk_size = 5`, `overlap = 1` returns `[hi]`, which contains no empty
chunk. -/
theorem chunk_text_no_empty_chunk_witness :
    chunk_text 1 ['h', 'i'] 5 1 = some (some [['h', 'i']])
    ∧ ([] : List Char) ∉ [['h', 'i']] :=
  ⟨rfl, chunk_text_no_empty_chunk ['h', 'i'] 5 1 1 [['h', 'i']] (by norm_num)
    (by decide) rfl⟩

/-- C1: deleting a document is claimed to pass the chunks' external ids to
the Index Manager's delete, so that a subsequent search returns no hit for
the document.  In the code, `delete_file` (files.py lines 103-128) removes
the DB records and the stored file but performs no vector-store operation at
all: the state after a successful delete has the identical vector store, and
any search by the owning user returns exactly what it returned before the
delete. -/
theorem delete_leaves_vector_index (s : AppState) (uid fid : String)
    (s' : AppState) (backend : Backend) (q : String) (k : Int)
    (h : delete_file s uid fid = some s') :
    s'.vector = s.vector ∧
      search_documents backend s'.vector uid q k
        = search_documents backend s.vector uid q k := by
  unfold delete_file at h
  split at h
  · obtain rfl := Option.some.inj h
    exact ⟨rfl, rfl⟩
  · exact Option.noConfusion h

/-- Witness for C1: a concrete state holding one indexed vector of document
`d1`; deleting `d1` succeeds yet the vector store (and hence every search
result) is unchanged. -/
theorem delete_leaves_vector_index_witness :
    sampleDeleted.vector = sampleState.vector ∧
      search_documents echoBackend sampleDeleted.vector "u1" "hello" 5
        = search_documents echoBackend sampleState.vector "u1" "hello" 5 :=
  delete_leaves_vector_index sampleState "u1" "d1" sampleDeleted echoBackend
    "hello" 5 rfl

/-- C2: every chunk persisted by a successful upload is claimed to have been
added to the owning user's vector index with external id
`"{document_id}_{chunk_index}"`.  In the code, `upload_file` (files.py lines
16-65) persists chunk records and marks the document `completed` without ever
calling `RAGService.add_documents_to_vector_store`: whatever state the upload
returns has the identical, untouched vector store. -/
theorem upload_never_writes_vector_index (fuel : Nat) (s : AppState)
    (uid fid : String) (text : List Char) (s' : AppState)
    (h : upload_file fuel s uid fid text = some s') :
    s'.vector = s.vector := by
  unfold upload_file at h
  cases hct : chunk_text fuel text 1000 200 with
  | none => rw [hct] at h; exact Option.noConfusion h
  | some o =>
    cases o with
    | none => rw [hct] at h; obtain rfl := Option.some.inj h; rfl
    | some cks => rw [hct] at h; obtain rfl := Option.some.inj h; rfl

/-- Witness for C2: uploading the two-character text `"hi"` from the empty
state completes with one persisted chunk, and the vector store is still the
empty one. -/
theorem upload_never_writes_vector_index_witness :
    (⟨[⟨"d1", "u1", true, "completed"⟩], [⟨"d1", 0, ['h', 'i'], none⟩],
        fun _ => []⟩ : AppState).vector
      = (⟨[], [], fun _ => []⟩ : AppState).vector :=
  upload_never_writes_vector_index 0 ⟨[], [], fun _ => []⟩ "u1" "d1" ['h', 'i']
    _ rfl

/-- C9: uploading a plain-text document whose extracted text has exactly 50
characters (below `chunk_size = 1000`) yields exactly one persisted chunk,
with `chunk_index = 0` and content equal to the full text, and the document
ends in `completed`. -/
theorem upload_small_text_single_chunk (fuel : Nat) (s : AppState)
    (uid fid : String) (text : List Char) (h : text.length = 50) :
    upload_file fuel s uid fid text
      = some { s with
          files := s.files ++
            [{ id := fid, user_id := uid, is_processed := true,
               processing_status := "completed" }],
          chunks := s.chunks ++
            [{ file_id := fid, chunk_index := 0, content := text,
               embedding_id := none }] } := by
  have hct : chunk_text fuel text 1000 200 = some (some [text]) := by
    unfold chunk_text
    rw [if_pos (by omega)]
  have he : ([text]).enum = [(0, text)] := rfl
  simp only [upload_file, hct, he, List.map]

/-- Witness for C9: a concrete 50-character text. -/
theorem upload_small_text_single_chunk_witness :
    upload_file 0 ⟨[], [], fun _ => []⟩ "u1" "d1" (List.replicate 50 'a')
      = some ⟨[⟨"d1", "u1", true, "completed"⟩],
              [⟨"d1", 0, List.replicate 50 'a', none⟩], fun _ => []⟩ :=
  upload_small_text_single_chunk 0 ⟨[], [], fun _ => []⟩ "u1" "d1"
    (List.replicate 50 'a') (by simp)

/-- C6: the claim states `search` with `k ≤ 0` fails with `InvalidArgument`
before any side effect.  In the code neither the `/search` route (chat.py
lines 165-183, `k: int = 5` unconstrained) nor `search_documents`
(rag_service.py lines 110-126) validates `k`: with `k = 0` the user's
collection is opened and the backend similarity query is issued with `k = 0`,
and the formatted backend results are returned. -/
theorem search_k_zero_reaches_backend :
    SearchEffect.backendQuery (collectionName "u1") "hello" 0
        ∈ searchEffects "u1" "hello" 0
    ∧ search_documents echoBackend vec1 "u1" "hello" 0
        = [⟨"hello", "d1", 0, 0⟩] := by
  constructor
  · simp [searchEffects]
  · rfl

/-- C6 (amended): for every `k`, also nonpositive ones, `search_documents`
first opens the user's collection, then issues the backend similarity query
with exactly the supplied `k`, and returns the formatted backend results; no
validation of `k` happens anywhere on the way. -/
theorem search_forwards_k_unvalidated (uid q : String) (k : Int) :
    (searchEffects uid q k).head? = some (.getCollection (collectionName uid))
    ∧ SearchEffect.backendQuery (collectionName uid) q k ∈ searchEffects uid q k
    ∧ ∀ backend store, search_documents backend store uid q k
        = (backend (store (collectionName uid)) q k).map
            (fun p => ⟨p.1.content, p.1.meta_file_id, p.1.meta_chunk_index, p.2⟩) :=
  ⟨rfl, by simp [searchEffects], fun _ _ => rfl⟩

/-- C7: namespace isolation: no sequence of add/delete operations performed
under user `u2` changes what `search` returns for a different user `u1` —
including adds that reuse one of `u1`'s external ids — because every write
lands in the collection `"user_" ++ u2`, the name map is injective, and
`search_documents` reads only `"user_" ++ u1`. -/
theorem user_namespace_isolated (backend : Backend) (store : VectorStore)
    (u1 u2 : String) (ops : List VOp) (q : String) (k : Int) (h : u1 ≠ u2) :
    search_documents backend (applyVOps u2 ops store) u1 q k
      = search_documents backend store u1 q k := by
  unfold search_documents
  rw [applyVOps_other u2 ops store (collectionName u1)
      (fun hc => h (collectionName_inj hc))]

/-- Witness for C7: alice holds a vector with external id `a_0`; bob adds a
vector with the identical external id; alice's search is unchanged. -/
theorem user_namespace_isolated_witness :
    search_documents echoBackend
        (applyVOps "bob" [VOp.add [⟨"a_0", "hello", "a", 0⟩]] witnessStore)
        "alice" "hello" 5
      = search_documents echoBackend witnessStore "alice" "hello" 5 :=
  user_namespace_isolated echoBackend witnessStore "alice" "bob"
    [VOp.add [⟨"a_0", "hello", "a", 0⟩]] "hello" 5 (by decide)

/-- C8: `generate_response` joins the retrieved chunk texts with a double
newline in search-ranked order as the context block, and passes the language
model one prompt made of the fixed instruction, that context block and the
verbatim query; with zero retrieved chunks the context block is empty, the
prompt is still the same well-formed string, and the call returns the model's
textual output. -/
theorem generate_response_prompt_shape (backend : Backend) (store : VectorStore)
    (llm : String → String) (uid q : String) (fids : Option (List String))
    (rs : List SearchHit) (h : search_documents backend store uid q 5 = rs) :
    generate_response backend store llm uid q fids
      = llm (ragInstruction ++ buildContext rs ++ "\n\nQuestion: " ++ q
          ++ "\n\nAnswer:")
    ∧ buildContext rs = String.intercalate "\n\n" (rs.map (fun r => r.content))
    ∧ (rs = [] → buildContext rs = ""
        ∧ generate_response backend store llm uid q fids
            = llm (ragPrompt "" q)) := by
  subst h
  refine ⟨rfl, rfl, fun h0 => ?_⟩
  constructor
  · rw [h0]
    decide
  · show llm (ragPrompt
        (buildContext (search_documents backend store uid q 5)) q)
      = llm (ragPrompt "" q)
    rw [h0, show buildContext [] = "" from by decide]

/-- Witness for C8: the empty store retrieves nothing; the response is the
model's answer to the empty-context prompt. -/
theorem generate_response_prompt_shape_witness :
    generate_response echoBackend (fun _ => []) (fun _ => "ok") "u1" "what" none
      = (fun _ => "ok") (ragInstruction ++ buildContext []
          ++ "\n\nQuestion: " ++ "what" ++ "\n\nAnswer:")
    ∧ buildContext [] = String.intercalate "\n\n"
        (List.map (fun r => r.content) ([] : List SearchHit))
    ∧ (([] : List SearchHit) = [] → buildContext [] = ""
        ∧ generate_response echoBackend (fun _ => []) (fun _ => "ok") "u1"
            "what" none
          = (fun _ => "ok") (ragPrompt "" "what")) :=
  generate_response_prompt_shape echoBackend (fun _ => []) (fun _ => "ok")
    "u1" "what" none [] rfl

/-- C10: the `file_ids` argument of `generate_response` has no effect: two
calls differing only in `file_ids` issue the identical search
`(user_id, query, 5)`, build the identical prompt, and return the identical
answer. -/
theorem generate_response_ignores_file_ids (backend : Backend)
    (store : VectorStore) (llm : String → String) (uid q : String)
    (fids fids' : Option (List String)) :
    generateResponseTrace backend store llm uid q fids
        = generateResponseTrace backend store llm uid q fids'
    ∧ (generateResponseTrace backend store llm uid q fids).searchCall
        = (uid, q, 5)
    ∧ generate_response backend store llm uid q fids
        = generate_response backend store llm uid q fids' :=
  ⟨rfl, rfl, rfl⟩

end Grahin
